import Mathlib

/-!
# wf-gsettings: the GSettings configuration backend of Wayfire

A shallow embedding of `src/gsettings.cpp`.  `std::string` is `String`, the
`std::unordered_map`s and the configuration model are association lists,
the `std::queue` of pending changes is a list whose head is the front, and
the global variables of the translation unit are the fields of explicit
state records.  GLib and wf-config are collaborators: the parts of their
behaviour the code relies on are given as small definitions next to the
function that calls them.
-/

namespace WfGsettings

/-! ## Strings -/

/-- Index of the first `c` in a character sequence; `none` is `std::string::npos`. -/
def find_first_of_chars : List Char → Char → Option Nat
  | [], _ => none
  | x :: xs, c => if x = c then some 0 else (find_first_of_chars xs c).map (· + 1)

/-- The call `s.find_first_of(":")` with a one-character set. -/
def find_first_of (s : String) (c : Char) : Option Nat :=
  find_first_of_chars s.data c

/-- The call `s.substr(pos, n)`; `n = none` is the default `npos` (to the end). -/
def substr (s : String) (pos : Nat) (n : Option Nat) : String :=
  match n with
  | none => ⟨s.data.drop pos⟩
  | some k => ⟨(s.data.drop pos).take k⟩

/-- The call `std::replace(s.begin(), s.end(), a, b)`. -/
def std_replace (s : String) (a b : Char) : String :=
  ⟨s.data.map (fun c => if c = a then b else c)⟩

/-! ## Schema resolution (`gsettings_update_schemas`, lines 52-69) -/

/-- Schema id and optional relocation path computed for a section name. -/
def resolve_schema (sec_name : String) : String × Option String :=
  let schema_name := "org.wayfire.section." ++ sec_name
  match find_first_of sec_name ':' with
  | some splitter =>
    let obj_type_name := substr sec_name 0 (some splitter)
    let section_name := substr sec_name (splitter + 1) none
    if obj_type_name ≠ "" ∧ section_name ≠ "" then
      ("org.wayfire.section." ++ obj_type_name,
        some ("/org/wayfire/section/" ++ std_replace obj_type_name '.' '/' ++ "/"
          ++ section_name ++ "/"))
    else
      (schema_name, none)
  | none => (schema_name, none)

/-! ## Wire values (`GVariant`) -/

/-- An IEEE-754 binary64 value, carried by its bit pattern. -/
structure GDouble where
  bits : Nat
deriving DecidableEq, Repr

/-- Floating-point operations the code calls; they are taken as given. -/
structure FloatOps where
  /-- The conversion `static_cast<float>(d)`, widened back on assignment. -/
  narrow : GDouble → GDouble
  /-- The call `std::to_string(double)`. -/
  to_string : GDouble → String
  /-- The parser `wf::option_type::from_string<double>`. -/
  double_from_string : String → Option GDouble
  /-- The parser `wf::option_type::from_string<wf::color_t>`. -/
  color_from_string : String → Option (GDouble × GDouble × GDouble × GDouble)

/-- A child of a row container inside an array value, by its type tag;
`unsupported` is a child of any type other than `s`, `b`, `i`, `d`. -/
inductive GChild where
  | str (s : String)
  | bool (b : Bool)
  | int32 (i : Int)
  | dbl (d : GDouble)
  | unsupported
deriving DecidableEq, Repr

/-- A wire value, by its type tag.  `dict` is an array of `{s*}` entries whose
values are containers (it also stands for the empty array of any element
type, over which the iteration of lines 241-261 makes no step); `array_other`
is a non-empty array of any other element type; `other` is a value of any
type the dispatch of `apply_field` does not name. -/
inductive GVariant where
  | str (s : String)
  | bool (b : Bool)
  | int32 (i : Int)
  | dbl (d : GDouble)
  | dddd (r g b a : GDouble)
  | dict (entries : List (String × List GChild))
  | array_other
  | other
deriving DecidableEq, Repr

/-! ## The configuration model (wf-config) -/

/-- Type of one column of a compound option. -/
inductive EntryKind where
  | string
  | boolean
  | integer
  | floating
deriving DecidableEq, Repr

/-- A configuration option: the dynamic type of a `wf::config::option_base_t`
(`option_t<std::string>`, `option_t<bool>`, `option_t<int>`,
`option_t<double>`, `option_t<wf::color_t>`, `compound_option_t`) with its
current value.  Options are taken without declared minimum or maximum. -/
inductive option_base_t where
  | str (value : String)
  | bool (value : Bool)
  | int (value : Int)
  | dbl (value : GDouble)
  | color (r g b a : GDouble)
  | compound (entries : List EntryKind) (value : List (List String))
deriving DecidableEq, Repr

/-- A section: its name and its options by name. -/
structure section_t where
  name : String
  options : List (String × option_base_t)
deriving DecidableEq, Repr

/-- The configuration manager: its sections, looked up by name. -/
abbrev config_manager_t := List section_t

/-- The call `config.get_section(name)`; `none` is the null pointer. -/
def get_section : config_manager_t → String → Option section_t
  | [], _ => none
  | s :: rest, name => if s.name = name then some s else get_section rest name

/-- Lookup in an option table. -/
def lookup_option : List (String × option_base_t) → String → Option option_base_t
  | [], _ => none
  | (k, o) :: rest, key => if k = key then some o else lookup_option rest key

/-- The call `section->get_option_or(key)`; `none` is the null pointer. -/
def section_t.get_option_or (s : section_t) (key : String) : Option option_base_t :=
  lookup_option s.options key

/-- Replace the option that `lookup_option` finds. -/
def update_option : List (String × option_base_t) → String → option_base_t →
    List (String × option_base_t)
  | [], _, _ => []
  | (k, o) :: rest, key, o' =>
    if k = key then (k, o') :: rest else (k, o) :: update_option rest key o'

/-- The effect of mutating, through its shared pointer, the option that
`get_section(sec)->get_option_or(key)` returns. -/
def store_option : config_manager_t → String → String → option_base_t → config_manager_t
  | [], _, _, _ => []
  | s :: rest, sec, key, o' =>
    if s.name = sec then { s with options := update_option s.options key o' } :: rest
    else s :: store_option rest sec key o'

/-- The value of option `key` of section `sec`, when both exist. -/
def option_value (config : config_manager_t) (sec key : String) : Option option_base_t :=
  match get_section config sec with
  | some s => s.get_option_or key
  | none => none

/-- Decimal text of a 32-bit integer (`std::to_string(int)`). -/
def int_to_string (i : Int) : String := toString i

/-- The parser `wf::option_type::from_string<bool>`: the lowercased text is
`true` or `1`, or `false` or `0`. -/
def bool_from_string (value : String) : Option Bool :=
  let lowercase : String := ⟨value.data.map Char.toLower⟩
  if lowercase = "true" ∨ lowercase = "1" then some true
  else if lowercase = "false" ∨ lowercase = "0" then some false
  else none

/-- Value of a run of decimal digits, `none` when a character is no digit. -/
def parse_digits : List Char → Nat → Option Nat
  | [], acc => some acc
  | c :: cs, acc => if c.isDigit then parse_digits cs (acc * 10 + (c.toNat - 48)) else none

/-- The parser `wf::option_type::from_string<int>`: the value read by
`in >> result` is accepted only when `value == std::to_string(result)`. -/
def int_from_string (value : String) : Option Int :=
  let read : Option Int :=
    match value.data with
    | '-' :: ds => (parse_digits ds 0).map (fun n => -(n : Int))
    | ds => (parse_digits ds 0).map (fun n => (n : Int))
  match read with
  | some result =>
    if -2147483648 ≤ result ∧ result ≤ 2147483647 ∧ value = int_to_string result then
      some result
    else none
  | none => none

/-- The call `opt->set_value_str(value)`: the text is parsed by the option's
own type and stored when it parses; a compound option takes no text. -/
def set_value_str (fe : FloatOps) (opt : option_base_t) (value : String) : option_base_t :=
  match opt with
  | .str _ => .str value
  | .bool b => match bool_from_string value with
    | some v => .bool v
    | none => .bool b
  | .int i => match int_from_string value with
    | some v => .int v
    | none => .int i
  | .dbl d => match fe.double_from_string value with
    | some v => .dbl v
    | none => .dbl d
  | .color r g b a => match fe.color_from_string value with
    | some (r', g', b', a') => .color r' g' b' a'
    | none => .color r g b a
  | .compound entries rows => .compound entries rows

/-- Whether a text parses as a column type (`is_parsable`). -/
def is_parsable (fe : FloatOps) (k : EntryKind) (text : String) : Bool :=
  match k with
  | .string => true
  | .boolean => (bool_from_string text).isSome
  | .integer => (int_from_string text).isSome
  | .floating => (fe.double_from_string text).isSome

/-- Whether the cells of a row after its name parse as the column types. -/
def cells_parse (fe : FloatOps) : List EntryKind → List String → Bool
  | [], _ => true
  | _ :: _, [] => false
  | k :: ks, c :: cs => is_parsable fe k c && cells_parse fe ks cs

/-- The test of `compound_option_t::set_value_untyped`: every row has one
cell more than there are columns, and every cell parses as its column. -/
def rows_accepted (fe : FloatOps) (entries : List EntryKind) (rows : List (List String)) : Bool :=
  rows.all (fun e => e.length == entries.length + 1 && cells_parse fe entries e.tail)

/-- The call `topt->set_value_untyped(rows)`: the rows are stored when
accepted, and the option is left as it was otherwise. -/
def set_value_untyped (fe : FloatOps) (entries : List EntryKind) (value rows : List (List String)) :
    option_base_t :=
  if rows_accepted fe entries rows then .compound entries rows else .compound entries value

/-! ## The value mapper (`apply_field`, `apply_update`) -/

/-- Lines 245-260: the loop over the children of a row container, which
pushes the rendering of each supported child onto `entry`. -/
def push_children (fe : FloatOps) : List GChild → List String → List String
  | [], entry => entry
  | v :: rest, entry =>
    match v with
    | .str s => push_children fe rest (entry ++ [s])
    | .bool b => push_children fe rest (entry ++ [if b then "1" else "0"])
    | .int32 i => push_children fe rest (entry ++ [int_to_string i])
    | .dbl d => push_children fe rest (entry ++ [fe.to_string d])
    | .unsupported => push_children fe rest entry

/-- Lines 242-261: the `g_variant_iter_loop` over the `{s*}` entries, which
appends one row per entry to `entries`. -/
def collect_entries (fe : FloatOps) :
    List (String × List GChild) → List (List String) → List (List String)
  | [], entries => entries
  | (entry_key, entry_val) :: rest, entries =>
    collect_entries fe rest (entries ++ [push_children fe entry_val [entry_key]])

/-- The function `apply_field` (lines 188-269).  `none` is the failure of the
process: the null section dereferenced at line 191, or the assertion of
`g_variant_iter_loop` on an array that does not hold `{s*}` entries. -/
def apply_field (fe : FloatOps) (config : config_manager_t) (val : GVariant)
    (sec key : String) : Option config_manager_t :=
  match get_section config sec with
  | none => none
  | some s =>
    match s.get_option_or key with
    | none => some config
    | some opt =>
      match val with
      | .str str_val => some (store_option config sec key (set_value_str fe opt str_val))
      | .bool b =>
        match opt with
        | .bool _ => some (store_option config sec key (.bool b))
        | _ => some config
      | .int32 i =>
        match opt with
        | .int _ => some (store_option config sec key (.int i))
        | _ => some config
      | .dbl d =>
        match opt with
        | .dbl _ => some (store_option config sec key (.dbl (fe.narrow d)))
        | _ => some config
      | .dddd r g b a =>
        match opt with
        | .color _ _ _ _ =>
          some (store_option config sec key
            (.color (fe.narrow r) (fe.narrow g) (fe.narrow b) (fe.narrow a)))
        | _ => some config
      | .dict wire_entries =>
        match opt with
        | .compound cols value =>
          some (store_option config sec key
            (set_value_untyped fe cols value (collect_entries fe wire_entries [])))
        | _ => some config
      | .array_other =>
        match opt with
        | .compound _ _ => none
        | _ => some config
      | .other => some config

/-- A pending change (`struct conf_change`). -/
structure conf_change where
  sec : String
  key : String
  val : GVariant
deriving DecidableEq, Repr

/-- The function `apply_update` (lines 271-285): the queue `changes` is
drained from its front; the result is the configuration and the queue that
is left.  No collaborator of this embedding throws, so the `try` block is
its body. -/
def apply_update (fe : FloatOps) (config : config_manager_t) :
    List conf_change → Option (config_manager_t × List conf_change)
  | [] => some (config, [])
  | chg :: rest =>
    match apply_field fe config chg.val chg.sec (std_replace chg.key '-' '_') with
    | none => none
    | some config' => apply_update fe config' rest

/-! ## The settings store (GLib) and the watcher state -/

/-- A `GSettings *`: the address of the object and what it was created from. -/
structure GSettings where
  addr : Nat
  schema_name : String
  path : Option String
deriving DecidableEq, Repr

/-- A `GSettingsSchema *`: the fixed path of the schema (`none` for a
relocatable schema) and its keys. -/
structure GSettingsSchema where
  path : Option String
  keys : List String
deriving DecidableEq, Repr

/-- The settings store, as the code queries it. -/
structure Store where
  /-- The call `g_settings_schema_source_lookup(default, schema_name, TRUE)`. -/
  schema_source_lookup : String → Option GSettingsSchema
  /-- Whether `g_settings_new(schema_name)` (path `none`) or
  `g_settings_new_with_path(schema_name, path)` returns an object. -/
  settings_new : String → Option String → Bool
  /-- The call `g_settings_get_value(settings, key)`. -/
  get_value : GSettings → String → GVariant

/-- The global variables of the translation unit (lines 25-30), with what the
watcher thread has done to its collaborators: the `changed` handlers it
connected, the next fresh object address, and the bytes it wrote to and read
from its end of the pipe. -/
structure Globals where
  gsets : List (String × GSettings)
  gsets_rev : List (GSettings × String)
  changes : List conf_change
  init_done : Bool
  handlers : List GSettings
  next_addr : Nat
  fd_written : Nat
  fd_read : Nat
deriving DecidableEq, Repr

/-- Lookup in `gsets`. -/
def gsets_find : List (String × GSettings) → String → Option GSettings
  | [], _ => none
  | (k, v) :: rest, name => if k = name then some v else gsets_find rest name

/-- The call `gsets.count(sec_name)`. -/
def gsets_count (gsets : List (String × GSettings)) (sec_name : String) : Nat :=
  if (gsets_find gsets sec_name).isSome then 1 else 0

/-- The call `gsets.emplace(sec_name, gs)`: nothing is inserted over a key. -/
def gsets_emplace (gsets : List (String × GSettings)) (sec_name : String) (gs : GSettings) :
    List (String × GSettings) :=
  if (gsets_find gsets sec_name).isSome then gsets else gsets ++ [(sec_name, gs)]

/-- Lookup in `gsets_rev`. -/
def gsets_rev_find : List (GSettings × String) → GSettings → Option String
  | [], _ => none
  | (k, v) :: rest, gs => if k = gs then some v else gsets_rev_find rest gs

/-- The call `gsets_rev.emplace(gs, sec_name)`. -/
def gsets_rev_emplace (rev : List (GSettings × String)) (gs : GSettings) (sec_name : String) :
    List (GSettings × String) :=
  if (gsets_rev_find rev gs).isSome then rev else rev ++ [(gs, sec_name)]

/-- The expression `gsets_rev[settings]`: a missing key is inserted with the
empty string. -/
def gsets_rev_index (rev : List (GSettings × String)) (settings : GSettings) :
    String × List (GSettings × String) :=
  match gsets_rev_find rev settings with
  | some sec => (sec, rev)
  | none => ("", rev ++ [(settings, "")])

/-- The function `gsettings_callback` (lines 32-41), as the watcher thread
runs it: the change is pushed, and once `init_done` holds one byte is written
to the descriptor and one byte is read from it. -/
def gsettings_callback (store : Store) (g : Globals) (settings : GSettings) (key : String) :
    Globals :=
  let indexed := gsets_rev_index g.gsets_rev settings
  let g1 : Globals :=
    { g with
      gsets_rev := indexed.2
      changes := g.changes ++ [⟨indexed.1, key, store.get_value settings key⟩] }
  if g1.init_done then
    { g1 with fd_written := g1.fd_written + 1, fd_read := g1.fd_read + 1 }
  else g1

/-- Lines 97-100: the callback is run on every key of the schema. -/
def initial_values (store : Store) (gs : GSettings) : List String → Globals → Globals
  | [], g => g
  | key :: keys, g => initial_values store gs keys (gsettings_callback store g gs key)

/-- The body of the loop of `gsettings_update_schemas` (lines 46-100) for the
section named `sec_name`. -/
def update_schema (store : Store) (g : Globals) (sec_name : String) : Globals :=
  if gsets_count g.gsets sec_name ≠ 0 then g
  else
    let resolved := resolve_schema sec_name
    let schema_name := resolved.1
    let reloc_path := resolved.2
    match store.schema_source_lookup schema_name with
    | none => g
    | some schema =>
      let is_reloc := schema.path.isNone
      if reloc_path.isNone ∧ is_reloc then g
      else if store.settings_new schema_name reloc_path then
        let gs : GSettings := ⟨g.next_addr, schema_name, reloc_path⟩
        let gsets := gsets_emplace g.gsets sec_name gs
        let connected := (gsets_find gsets sec_name).getD gs
        let g1 : Globals :=
          { g with
            gsets := gsets
            gsets_rev := gsets_rev_emplace g.gsets_rev gs sec_name
            handlers := g.handlers ++ [connected]
            next_addr := g.next_addr + 1 }
        initial_values store gs schema.keys g1
      else g

/-- The function `gsettings_update_schemas` (lines 43-102) over the sections
that `config.get_all_sections()` returns. -/
def gsettings_update_schemas (store : Store) (config : config_manager_t) (g : Globals) :
    Globals :=
  (config.map (·.name)).foldl (update_schema store) g

/-! ## Dynamic sections (`gsettings_meta_callback`) -/

/-- The call `section->clone_with_name(name)`: a section of that name with
copies of the options. -/
def section_t.clone_with_name (s : section_t) (name : String) : section_t :=
  { name := name, options := s.options }

/-- Merging an option into the options of a section that is already there:
an option of that name and dynamic type takes the value, an option that is
missing is registered.  (wf-config passes the value as text between the two;
that is taken as a copy.) -/
def merge_option (existing : List (String × option_base_t)) (incoming : String × option_base_t) :
    List (String × option_base_t) :=
  match lookup_option existing incoming.1, incoming.2 with
  | none, o => existing ++ [(incoming.1, o)]
  | some (.str _), .str v => update_option existing incoming.1 (.str v)
  | some (.bool _), .bool v => update_option existing incoming.1 (.bool v)
  | some (.int _), .int v => update_option existing incoming.1 (.int v)
  | some (.dbl _), .dbl v => update_option existing incoming.1 (.dbl v)
  | some (.color _ _ _ _), .color r g b a => update_option existing incoming.1 (.color r g b a)
  | some _, _ => existing

/-- Merging a section into the section of its name. -/
def merge_into : config_manager_t → section_t → config_manager_t
  | [], _ => []
  | s :: rest, incoming =>
    if s.name = incoming.name then
      { s with options := incoming.options.foldl merge_option s.options } :: rest
    else s :: merge_into rest incoming

/-- The call `config.merge_section(section)`: a section whose name the
manager does not hold is added; otherwise its options are merged into the
section that is there. -/
def merge_section (config : config_manager_t) (s : section_t) : config_manager_t :=
  match get_section config s.name with
  | none => config ++ [s]
  | some _ => merge_into config s

/-- Lines 111-124: the loop over the entries of `dyn-sections`. -/
def add_dynamic_sections (config : config_manager_t) : List String → config_manager_t
  | [] => config
  | sec :: rest =>
    match get_section config sec with
    | some _ => add_dynamic_sections config rest
    | none =>
      let splitter := find_first_of sec ':'
      let obj_type_name := substr sec 0 splitter
      match get_section config obj_type_name with
      | none => add_dynamic_sections config rest
      | some parent_section =>
        add_dynamic_sections (merge_section config (parent_section.clone_with_name sec)) rest

/-- The configuration model together with the globals of the watcher. -/
structure World where
  config : config_manager_t
  globals : Globals
deriving DecidableEq, Repr

/-- The function `gsettings_meta_callback` (lines 104-128); `lst` is the
string array that `g_variant_get_strv(g_settings_get_value(settings, key),
&lstlen)` returns at line 110. -/
def gsettings_meta_callback (store : Store) (w : World) (lst : List String) (key : String) :
    World :=
  if key = "dyn-sections" then
    let config := add_dynamic_sections w.config lst
    { config := config, globals := gsettings_update_schemas store config w.globals }
  else w

/-! ## The debounced notifier (`handle_update`) -/

/-- The timer `sig_debounce` (the deadline of the armed one-shot timer, in
milliseconds, `none` when disconnected) and the number of `reload-config`
signals emitted so far. -/
structure Notifier where
  sig_debounce : Option Nat
  reloads : Nat
deriving DecidableEq, Repr

/-- The call `sig_debounce.disconnect()`. -/
def Notifier.disconnect (n : Notifier) : Notifier :=
  { n with sig_debounce := none }

/-- The call `sig_debounce.set_timeout(ms, callback)` at time `now`. -/
def Notifier.set_timeout (n : Notifier) (now ms : Nat) : Notifier :=
  { n with sig_debounce := some (now + ms) }

/-- Lines 296-301 at time `now`: the timer is disconnected and set to 69 ms. -/
def Notifier.rearm (n : Notifier) (now : Nat) : Notifier :=
  n.disconnect.set_timeout now 69

/-- The timer callback of lines 297-301: one `reload-config` signal; the
callback returns `false`, which disconnects the timer. -/
def Notifier.fire (n : Notifier) : Notifier :=
  { sig_debounce := none, reloads := n.reloads + 1 }

/-- The event loop at time `now`, before it dispatches a readable descriptor:
a timer whose deadline has passed fires.  `timer_first` says which of the two
the loop dispatches first when both are due at the same millisecond. -/
def Notifier.dispatch (timer_first : Bool) (n : Notifier) (now : Nat) : Notifier :=
  match n.sig_debounce with
  | some deadline =>
    if deadline < now ∨ (deadline = now ∧ timer_first = true) then n.fire else n
  | none => n

/-- The consumer: the configuration, the notifier, and the bytes read from
and written to its end of the pipe. -/
structure Consumer where
  config : config_manager_t
  notifier : Notifier
  fd_read : Nat
  fd_written : Nat
deriving DecidableEq, Repr

/-- The function `handle_update` (lines 287-304) at time `now`, on the queue
`changes`. -/
def handle_update (fe : FloatOps) (now : Nat) (ctx : Consumer) (changes : List conf_change) :
    Option (Consumer × List conf_change) :=
  match apply_update fe ctx.config changes with
  | none => none
  | some (config, left) =>
    some ({ config := config
            notifier := ctx.notifier.rearm now
            fd_read := ctx.fd_read + 1
            fd_written := ctx.fd_written + 1 }, left)

/-- The event loop at time `now`, before it dispatches the readable
descriptor to `handle_update`: a due timer of the consumer fires. -/
def Consumer.dispatch (timer_first : Bool) (ctx : Consumer) (now : Nat) : Consumer :=
  { ctx with notifier := ctx.notifier.dispatch timer_first now }

/-- The consumer over a sequence of batches.  For a batch `(now, pushed)` the
watcher has pushed `pushed` onto the queue `changes` and signalled the
descriptor at time `now`; the event loop fires a due timer and then calls
`handle_update`.  `none` is the failure of `handle_update`. -/
def run_batches (fe : FloatOps) (timer_first : Bool) :
    List (Nat × List conf_change) → Consumer → List conf_change →
      Option (Consumer × List conf_change)
  | [], ctx, changes => some (ctx, changes)
  | (now, pushed) :: rest, ctx, changes =>
    match handle_update fe now (ctx.dispatch timer_first now) (changes ++ pushed) with
    | none => none
    | some (ctx', left) => run_batches fe timer_first rest ctx' left

/-- The number of `reload-config` signals emitted by time `horizon`, after
the batches were handled from an empty queue. -/
def reload_count (fe : FloatOps) (timer_first : Bool) (batches : List (Nat × List conf_change))
    (horizon : Nat) (ctx : Consumer) : Option Nat :=
  (run_batches fe timer_first batches ctx []).map
    (fun r => (r.1.dispatch timer_first horizon).notifier.reloads)

/-! ## Vocabulary of the statements -/

/-- The pairs of wire type tag and option type that belong together: string
and string, boolean and boolean, int32 and integer, double and
floating-point, `(dddd)` and color, array and compound. -/
def kind_matches : GVariant → option_base_t → Bool
  | .str _, .str _ => true
  | .bool _, .bool _ => true
  | .int32 _, .int _ => true
  | .dbl _, .dbl _ => true
  | .dddd _ _ _ _, .color _ _ _ _ => true
  | .dict _, .compound _ _ => true
  | .array_other, .compound _ _ => true
  | _, _ => false

/-- The option content that equals a string, boolean or int32 wire value. -/
def direct_copy : GVariant → Option option_base_t
  | .str s => some (.str s)
  | .bool b => some (.bool b)
  | .int32 i => some (.int i)
  | _ => none

/-- The option content a scalar or `(dddd)` wire value leaves behind: the
value itself for a string, boolean or int32, the value narrowed to single
precision for a double and for each channel of a color. -/
def scalar_content (fe : FloatOps) : GVariant → Option option_base_t
  | .str s => some (.str s)
  | .bool b => some (.bool b)
  | .int32 i => some (.int i)
  | .dbl d => some (.dbl (fe.narrow d))
  | .dddd r g b a => some (.color (fe.narrow r) (fe.narrow g) (fe.narrow b) (fe.narrow a))
  | _ => none

/-- Rendering of a child of a row as the specification words it: a string
verbatim, a boolean as `1` or `0`, an int32 and a double as decimal text, and
nothing for a child of any other type. -/
def render_child (fe : FloatOps) : GChild → Option String
  | .str s => some s
  | .bool true => some "1"
  | .bool false => some "0"
  | .int32 i => some (int_to_string i)
  | .dbl d => some (fe.to_string d)
  | .unsupported => none

/-- The rows of a mapping as the specification words them: one row per
entry, the row key followed by the renderings of the children. -/
def compound_rows (fe : FloatOps) (wire : List (String × List GChild)) : List (List String) :=
  wire.map (fun e => e.1 :: e.2.filterMap (render_child fe))

/-- The option content a wire value of the matching type leaves behind when
the option takes it: `scalar_content` for a scalar or `(dddd)` value, and for
a mapping sent to a compound option its rows, when the option accepts them. -/
def written_content (fe : FloatOps) (opt : option_base_t) (v : GVariant) :
    Option option_base_t :=
  match v, opt with
  | .dict wire, .compound cols _ =>
    if rows_accepted fe cols (compound_rows fe wire) then
      some (.compound cols (compound_rows fe wire))
    else none
  | .dict _, _ => none
  | w, _ => scalar_content fe w

/-- Two options of one dynamic type, compound options with the same columns. -/
def same_type : option_base_t → option_base_t → Bool
  | .str _, .str _ => true
  | .bool _, .bool _ => true
  | .int _, .int _ => true
  | .dbl _, .dbl _ => true
  | .color _ _ _ _, .color _ _ _ _ => true
  | .compound c1 _, .compound c2 _ => decide (c1 = c2)
  | _, _ => false

/-- A change that can be applied in this configuration: its section exists
and its value is no foreign array. -/
def change_applies (config : config_manager_t) (chg : conf_change) : Bool :=
  (get_section config chg.sec).isSome && (chg.val != GVariant.array_other)

/-- Floating-point operations for evaluating the definitions on values that
hold no double: no narrowing, the bit pattern as text, no text parsed. -/
def plain_float_ops : FloatOps where
  narrow := fun d => d
  to_string := fun d => toString d.bits
  double_from_string := fun _ => none
  color_from_string := fun _ => none

/-- Whether lines 52-90 get as far as binding a section of this name that
is not bound yet: the schema is found, it has a path or a relocation path was
computed, and the settings object is created. -/
def can_bind (store : Store) (sec_name : String) : Bool :=
  match store.schema_source_lookup (resolve_schema sec_name).1 with
  | none => false
  | some schema =>
    !((resolve_schema sec_name).2.isNone && schema.path.isNone) &&
      store.settings_new (resolve_schema sec_name).1 (resolve_schema sec_name).2

/-- One binding and one subscription for each bound section: no section name
is bound twice, the connected handlers are the bound objects in the order of
binding, no object is connected twice, and the objects are older than the
next fresh address. -/
def one_binding_each (g : Globals) : Prop :=
  (g.gsets.map Prod.fst).Nodup ∧ g.handlers = g.gsets.map Prod.snd ∧
    g.handlers.Nodup ∧ ∀ h ∈ g.handlers, h.addr < g.next_addr

/-- The globals as the translation unit initialises them (lines 25-30). -/
def initial_globals : Globals :=
  { gsets := [], gsets_rev := [], changes := [], init_done := false,
    handlers := [], next_addr := 0, fd_written := 0, fd_read := 0 }

/-- A store for evaluating the definitions: the fixed schema of section
`core`, the relocatable schema of `device.output`, every object created. -/
def sample_store : Store where
  schema_source_lookup := fun schema_name =>
    if schema_name = "org.wayfire.section.core" then
      some ⟨some "/org/wayfire/section/core/", ["vwidth"]⟩
    else if schema_name = "org.wayfire.section.device.output" then
      some ⟨none, ["brightness"]⟩
    else none
  settings_new := fun _ _ => true
  get_value := fun _ key => if key = "vwidth" then .int32 3 else .int32 50

/-! ## Theorems -/

theorem find_first_of_chars_absent (t : List Char) (c : Char) (h : c ∉ t) :
    find_first_of_chars t c = none := by
  induction t with
  | nil => rfl
  | cons x xs ih =>
    have hx : x ≠ c := fun e => h (by simp [e])
    have hxs : c ∉ xs := fun m => h (List.mem_cons_of_mem _ m)
    simp [find_first_of_chars, hx, ih hxs]

theorem find_first_of_chars_split (t i : List Char) (c : Char) (h : c ∉ t) :
    find_first_of_chars (t ++ c :: i) c = some t.length := by
  induction t with
  | nil => simp [find_first_of_chars]
  | cons x xs ih =>
    have hx : x ≠ c := fun e => h (by simp [e])
    have hxs : c ∉ xs := fun m => h (List.mem_cons_of_mem _ m)
    simp [find_first_of_chars, hx, ih hxs]

theorem drop_past_separator (t i : List Char) (c : Char) :
    (t ++ c :: i).drop (t.length + 1) = i := by
  simp

theorem join_colon_data (t i : String) :
    (t ++ ":" ++ i).data = t.data ++ ':' :: i.data := by
  simp [String.data_append]

/-- C1: for a type part `t` without `':'`, the name `t` alone resolves to the
fixed schema `org.wayfire.section.t` without a path; the name `t:i` resolves to
the relocatable schema `org.wayfire.section.t` at
`/org/wayfire/section/<t with '.' as '/'>/i/` when both halves are non-empty,
and to the fixed schema of the whole name without a path otherwise. -/
theorem resolve_schema_spec (t i : String) (ht : ':' ∉ t.data) :
    resolve_schema t = ("org.wayfire.section." ++ t, none) ∧
    resolve_schema (t ++ ":" ++ i) =
      if t ≠ "" ∧ i ≠ "" then
        ("org.wayfire.section." ++ t,
          some ("/org/wayfire/section/" ++ std_replace t '.' '/' ++ "/" ++ i ++ "/"))
      else ("org.wayfire.section." ++ (t ++ ":" ++ i), none) := by
  constructor
  · simp [resolve_schema, find_first_of, find_first_of_chars_absent _ _ ht]
  · have hd := join_colon_data t i
    have hfind : find_first_of (t ++ ":" ++ i) ':' = some t.data.length := by
      rw [find_first_of, hd]
      exact find_first_of_chars_split t.data i.data ':' ht
    have h1 : substr (t ++ ":" ++ i) 0 (some t.data.length) = t := by
      apply String.ext
      simp only [substr, hd]
      simp
    have h2 : substr (t ++ ":" ++ i) (t.data.length + 1) none = i := by
      apply String.ext
      simp only [substr, hd]
      exact drop_past_separator t.data i.data ':'
    simp only [resolve_schema, hfind, h1, h2]

theorem resolve_schema_spec_witness :
    ':' ∉ "device.output".data ∧
    resolve_schema "device.output:eDP-1" =
      ("org.wayfire.section.device.output", some "/org/wayfire/section/device/output/eDP-1/") :=
  ⟨by decide, by
    have h := (resolve_schema_spec "device.output" "eDP-1" (by decide)).2
    simpa using h⟩

/-! ### The configuration model -/

theorem lookup_update_option (opts : List (String × option_base_t)) (key : String)
    (o o' : option_base_t) (h : lookup_option opts key = some o) :
    lookup_option (update_option opts key o') key = some o' := by
  induction opts with
  | nil => simp [lookup_option] at h
  | cons kv rest ih =>
    obtain ⟨k, v⟩ := kv
    by_cases hk : k = key
    · simp [update_option, lookup_option, hk]
    · simp only [lookup_option, hk, if_false] at h
      simp [update_option, lookup_option, hk, ih h]

theorem update_option_same (opts : List (String × option_base_t)) (key : String)
    (o : option_base_t) (h : lookup_option opts key = some o) :
    update_option opts key o = opts := by
  induction opts with
  | nil => rfl
  | cons kv rest ih =>
    obtain ⟨k, v⟩ := kv
    by_cases hk : k = key
    · simp only [lookup_option, hk, if_true, Option.some.injEq] at h
      simp [update_option, hk, h]
    · simp only [lookup_option, hk, if_false] at h
      simp [update_option, hk, ih h]

theorem get_section_store_option (config : config_manager_t) (sec key : String)
    (s : section_t) (o' : option_base_t) (h : get_section config sec = some s) :
    get_section (store_option config sec key o') sec =
      some { s with options := update_option s.options key o' } := by
  induction config with
  | nil => simp [get_section] at h
  | cons x rest ih =>
    by_cases hx : x.name = sec
    · simp only [get_section, hx, if_true, Option.some.injEq] at h
      subst h
      simp [store_option, get_section, hx]
    · simp only [get_section, hx, if_false] at h
      simp [store_option, get_section, hx, ih h]

theorem store_option_same (config : config_manager_t) (sec key : String)
    (s : section_t) (o : option_base_t) (hs : get_section config sec = some s)
    (ho : s.get_option_or key = some o) :
    store_option config sec key o = config := by
  induction config with
  | nil => rfl
  | cons x rest ih =>
    by_cases hx : x.name = sec
    · simp only [get_section, hx, if_true, Option.some.injEq] at hs
      subst hs
      have hu := update_option_same _ _ _ ho
      cases x
      simp only [store_option, hx, if_true] at *
      subst hx
      simp [hu]
    · simp only [get_section, hx, if_false] at hs
      simp [store_option, hx, ih hs]

theorem option_value_store_option (config : config_manager_t) (sec key : String)
    (s : section_t) (o o' : option_base_t) (hs : get_section config sec = some s)
    (ho : s.get_option_or key = some o) :
    option_value (store_option config sec key o') sec key = some o' := by
  simp only [option_value, get_section_store_option config sec key s o' hs,
    section_t.get_option_or]
  exact lookup_update_option s.options key o o' ho

/-! ### The value mapper -/

/-- C2 (amended): for an existing option whose type does not match the type
tag of the wire value, `apply_field` leaves the configuration as it was unless
the wire value is a string; a string is handed to `set_value_str` of the
option whatever its type, which stores what the option's own type parses from
the text.  Storing the content an option already has changes nothing. -/
theorem apply_field_kind_mismatch (fe : FloatOps) (config : config_manager_t) (val : GVariant)
    (sec key : String) (s : section_t) (opt : option_base_t)
    (hs : get_section config sec = some s) (ho : s.get_option_or key = some opt)
    (hk : kind_matches val opt = false) :
    apply_field fe config val sec key =
      (match val with
        | .str text => some (store_option config sec key (set_value_str fe opt text))
        | _ => some config) ∧
    store_option config sec key opt = config := by
  refine ⟨?_, store_option_same config sec key s opt hs ho⟩
  simp only [apply_field, hs, ho]
  cases val <;> cases opt <;> first
    | rfl
    | exact Bool.noConfusion hk

theorem apply_field_kind_mismatch_witness :
    get_section [⟨"core", [("flag", .bool false)]⟩] "core" =
      some ⟨"core", [("flag", .bool false)]⟩ ∧
    apply_field plain_float_ops [⟨"core", [("flag", .bool false)]⟩]
      (.dict [("row", [.int32 1])]) "core" "flag" =
      some [⟨"core", [("flag", .bool false)]⟩] :=
  ⟨by decide,
    (apply_field_kind_mismatch plain_float_ops [⟨"core", [("flag", .bool false)]⟩]
      (.dict [("row", [.int32 1])]) "core" "flag" ⟨"core", [("flag", .bool false)]⟩
      (.bool false) (by decide) (by decide) (by decide)).1⟩

/-- C2 (as stated, refuted): a string wire value does not match a boolean
option, and yet `apply_field` turns the option from `false` to `true`. -/
theorem string_wire_sets_boolean_option :
    kind_matches (.str "true") (.bool false) = false ∧
    apply_field plain_float_ops [⟨"core", [("flag", .bool false)]⟩]
      (.str "true") "core" "flag" =
      some [⟨"core", [("flag", .bool true)]⟩] := by
  decide

theorem direct_copy_scalar_content (fe : FloatOps) (v : GVariant) (target : option_base_t)
    (h : direct_copy v = some target) : scalar_content fe v = some target := by
  cases v <;> simp_all [direct_copy, scalar_content]

theorem apply_field_scalar (fe : FloatOps) (config : config_manager_t) (val : GVariant)
    (sec key : String) (s : section_t) (opt target : option_base_t)
    (hs : get_section config sec = some s) (ho : s.get_option_or key = some opt)
    (hv : scalar_content fe val = some target) (hk : kind_matches val opt = true) :
    apply_field fe config val sec key = some (store_option config sec key target) := by
  simp only [apply_field, hs, ho]
  cases val <;> cases opt <;> first
    | exact Bool.noConfusion hk
    | exact Option.noConfusion hv
    | (simp only [scalar_content, Option.some.injEq] at hv
       subst hv
       rfl)

/-- C3: when a section has an option named as the wire key with every `-`
replaced by `_`, of the type that matches a string, boolean or int32 wire
value, then `apply_update` on the queue that holds that one change ends with
an empty queue and with the option holding exactly the wire value. -/
theorem apply_update_round_trip (fe : FloatOps) (config : config_manager_t)
    (sec K : String) (V : GVariant) (s : section_t) (opt target : option_base_t)
    (hs : get_section config sec = some s)
    (ho : s.get_option_or (std_replace K '-' '_') = some opt)
    (hv : direct_copy V = some target) (hk : kind_matches V opt = true) :
    ∃ config', apply_update fe config [⟨sec, K, V⟩] = some (config', []) ∧
      option_value config' sec (std_replace K '-' '_') = some target := by
  refine ⟨store_option config sec (std_replace K '-' '_') target, ?_, ?_⟩
  · simp [apply_update,
      apply_field_scalar fe config V sec _ s opt target hs ho
        (direct_copy_scalar_content fe V target hv) hk]
  · exact option_value_store_option config sec _ s opt target hs ho

theorem apply_update_round_trip_witness :
    ∃ config', apply_update plain_float_ops [⟨"core", [("xwayland_on", .bool false)]⟩]
        [⟨"core", "xwayland-on", .bool true⟩] = some (config', []) ∧
      option_value config' "core" (std_replace "xwayland-on" '-' '_') = some (.bool true) :=
  apply_update_round_trip plain_float_ops [⟨"core", [("xwayland_on", .bool false)]⟩]
    "core" "xwayland-on" (.bool true) ⟨"core", [("xwayland_on", .bool false)]⟩
    (.bool false) (.bool true) (by decide) (by decide) (by decide) (by decide)

theorem apply_update_append (fe : FloatOps) (q1 q2 : List conf_change) :
    ∀ config : config_manager_t,
      apply_update fe config (q1 ++ q2) =
        match apply_update fe config q1 with
        | none => none
        | some r => apply_update fe r.1 q2 := by
  induction q1 with
  | nil => intro config; rfl
  | cons chg rest ih =>
    intro config
    simp only [List.cons_append, apply_update]
    cases h : apply_field fe config chg.val chg.sec (std_replace chg.key '-' '_') with
    | none => rfl
    | some c => simpa using ih c

theorem push_children_eq (fe : FloatOps) (children : List GChild) :
    ∀ entry : List String,
      push_children fe children entry = entry ++ children.filterMap (render_child fe) := by
  induction children with
  | nil => intro entry; simp [push_children]
  | cons c rest ih =>
    intro entry
    cases c with
    | str v => simp [push_children, render_child, ih]
    | bool b => cases b <;> simp [push_children, render_child, ih]
    | int32 i => simp [push_children, render_child, ih]
    | dbl d => simp [push_children, render_child, ih]
    | unsupported => simp [push_children, render_child, ih]

theorem collect_entries_eq (fe : FloatOps) (wire : List (String × List GChild)) :
    ∀ entries : List (List String),
      collect_entries fe wire entries =
        entries ++ wire.map (fun e => e.1 :: e.2.filterMap (render_child fe)) := by
  induction wire with
  | nil => intro entries; simp [collect_entries]
  | cons e rest ih =>
    intro entries
    obtain ⟨k, children⟩ := e
    simp [collect_entries, ih, push_children_eq]

theorem apply_update_fold (fe : FloatOps) (q : List conf_change) :
    ∀ config : config_manager_t,
      apply_update fe config q =
        (q.foldlM (fun c chg => apply_field fe c chg.val chg.sec (std_replace chg.key '-' '_'))
          config).map (fun c => (c, [])) := by
  induction q with
  | nil => intro config; rfl
  | cons chg rest ih =>
    intro config
    simp only [apply_update, List.foldlM_cons]
    cases h : apply_field fe config chg.val chg.sec (std_replace chg.key '-' '_') with
    | none => rfl
    | some c => simpa using ih c

theorem same_type_kind_matches (v : GVariant) (o o' : option_base_t)
    (h : same_type o' o = true) : kind_matches v o' = kind_matches v o := by
  cases o <;> cases o' <;> first
    | exact Bool.noConfusion h
    | (cases v <;> rfl)

theorem same_type_written_content (fe : FloatOps) (v : GVariant) (o o' : option_base_t)
    (h : same_type o' o = true) : written_content fe o' v = written_content fe o v := by
  cases o <;> cases o' <;> first
    | exact Bool.noConfusion h
    | (cases v <;> rfl)
    | (have hc := of_decide_eq_true h
       subst hc
       cases v <;> rfl)

theorem same_type_trans (a b c : option_base_t)
    (h1 : same_type a b = true) (h2 : same_type b c = true) : same_type a c = true := by
  cases a <;> cases b <;> first
    | exact Bool.noConfusion h1
    | (cases c <;> first
        | exact Bool.noConfusion h2
        | rfl
        | (have e1 := of_decide_eq_true h1
           have e2 := of_decide_eq_true h2
           exact decide_eq_true (e1.trans e2)))

/-- A change of the matching type that is no foreign array is applied: the
option is stored anew with content of its own type. -/
theorem apply_field_matching (fe : FloatOps) (config : config_manager_t) (val : GVariant)
    (sec key : String) (s : section_t) (opt : option_base_t)
    (hs : get_section config sec = some s) (ho : s.get_option_or key = some opt)
    (hk : kind_matches val opt = true) (hv : val ≠ .array_other) :
    ∃ o', apply_field fe config val sec key = some (store_option config sec key o') ∧
      same_type o' opt = true := by
  simp only [apply_field, hs, ho]
  cases val <;> cases opt <;> first
    | exact Bool.noConfusion hk
    | exact absurd rfl hv
    | (refine ⟨_, rfl, ?_⟩
       first
         | rfl
         | (simp only [set_value_untyped]
            split <;> simp [same_type]))

/-- A change whose content the option takes is stored as that content. -/
theorem apply_field_written (fe : FloatOps) (config : config_manager_t) (val : GVariant)
    (sec key : String) (s : section_t) (opt target : option_base_t)
    (hs : get_section config sec = some s) (ho : s.get_option_or key = some opt)
    (hk : kind_matches val opt = true) (hw : written_content fe opt val = some target) :
    apply_field fe config val sec key = some (store_option config sec key target) := by
  simp only [apply_field, hs, ho]
  cases val <;> cases opt <;> first
    | exact Bool.noConfusion hk
    | exact Option.noConfusion hw
    | (simp only [written_content, scalar_content, Option.some.injEq] at hw
       subst hw
       rfl)
    | (simp only [written_content] at hw
       split at hw
       · rename_i hacc
         simp only [Option.some.injEq] at hw
         subst hw
         simp only [compound_rows] at hacc
         simp [set_value_untyped, collect_entries_eq, compound_rows, hacc]
       · exact Option.noConfusion hw)

theorem apply_update_same_option (fe : FloatOps) (sec K : String) (vals : List GVariant) :
    ∀ (config : config_manager_t) (s : section_t) (opt : option_base_t),
      get_section config sec = some s →
      s.get_option_or (std_replace K '-' '_') = some opt →
      (∀ v ∈ vals, kind_matches v opt = true ∧ v ≠ .array_other) →
      ∃ config' s' opt',
        apply_update fe config (vals.map (fun v => ⟨sec, K, v⟩)) = some (config', []) ∧
        get_section config' sec = some s' ∧
        s'.get_option_or (std_replace K '-' '_') = some opt' ∧
        same_type opt' opt = true := by
  induction vals with
  | nil =>
    intro config s opt hs ho _
    refine ⟨config, s, opt, rfl, hs, ho, ?_⟩
    cases opt <;> simp [same_type]
  | cons v rest ih =>
    intro config s opt hs ho hall
    obtain ⟨hk, hv⟩ := hall v (List.mem_cons_self _ _)
    obtain ⟨t, hstep, ht⟩ := apply_field_matching fe config v sec _ s opt hs ho hk hv
    have hs1 := get_section_store_option config sec (std_replace K '-' '_') s t hs
    have ho1 : section_t.get_option_or
        { s with options := update_option s.options (std_replace K '-' '_') t }
        (std_replace K '-' '_') = some t :=
      lookup_update_option s.options _ opt t ho
    obtain ⟨config', s', opt', hrun, hs', ho', hk'⟩ :=
      ih _ _ t hs1 ho1 (fun w hw => by
        obtain ⟨h1, h2⟩ := hall w (List.mem_cons_of_mem _ hw)
        exact ⟨by rw [same_type_kind_matches w opt t ht]; exact h1, h2⟩)
    refine ⟨config', s', opt', ?_, hs', ho', same_type_trans _ _ _ hk' ht⟩
    simp only [List.map_cons, apply_update, hstep]
    exact hrun

/-- C4 (amended): `apply_update` on any queue is the left-to-right fold of
`apply_field` over all of its changes and leaves the queue empty.  For a
non-empty run of changes to one section and key, each of the type matching
the option (an array being a mapping), of which the last is taken by the
option (a mapping whose rows `set_value_untyped` accepts, or any scalar or
`(dddd)` value), the option ends holding the content of the last change: the
value itself for a string, boolean or int32, the value narrowed to single
precision for a double and a color, the rows for a mapping. -/
theorem apply_update_last_write_wins (fe : FloatOps) (config : config_manager_t)
    (sec K : String) (s : section_t) (opt target : option_base_t)
    (vals : List GVariant) (last : GVariant)
    (queue : List conf_change) (start : config_manager_t)
    (hs : get_section config sec = some s)
    (ho : s.get_option_or (std_replace K '-' '_') = some opt)
    (hvals : ∀ v ∈ vals, kind_matches v opt = true ∧ v ≠ .array_other)
    (hk : kind_matches last opt = true)
    (hlast : written_content fe opt last = some target) :
    apply_update fe start queue =
      (queue.foldlM (fun c chg => apply_field fe c chg.val chg.sec (std_replace chg.key '-' '_'))
        start).map (fun c => (c, [])) ∧
    ∃ config', apply_update fe config ((vals ++ [last]).map (fun v => ⟨sec, K, v⟩)) =
        some (config', []) ∧
      option_value config' sec (std_replace K '-' '_') = some target := by
  refine ⟨apply_update_fold fe queue start, ?_⟩
  obtain ⟨c1, s1, o1, hrun, hs1, ho1, hk1⟩ :=
    apply_update_same_option fe sec K vals config s opt hs ho hvals
  have hstep := apply_field_written fe c1 last sec _ s1 o1 target hs1 ho1
    (by rw [same_type_kind_matches last opt o1 hk1]; exact hk)
    (by rw [same_type_written_content fe last opt o1 hk1]; exact hlast)
  refine ⟨store_option c1 sec (std_replace K '-' '_') target, ?_, ?_⟩
  · rw [List.map_append, apply_update_append, hrun]
    simp [apply_update, hstep]
  · exact option_value_store_option c1 sec _ s1 o1 target hs1 ho1

theorem apply_update_last_write_wins_witness :
    ∃ config', apply_update plain_float_ops [⟨"core", [("rows", .compound [.integer] [])]⟩]
        (([GVariant.dict [("a", [.int32 1])], GVariant.dict [("b", [.str "x"])]] ++
          [GVariant.dict [("c", [.int32 2])]]).map
          (fun v => ⟨"core", "rows", v⟩)) = some (config', []) ∧
      option_value config' "core" (std_replace "rows" '-' '_') =
        some (.compound [.integer] [["c", "2"]]) :=
  (apply_update_last_write_wins plain_float_ops [⟨"core", [("rows", .compound [.integer] [])]⟩]
    "core" "rows" ⟨"core", [("rows", .compound [.integer] [])]⟩
    (.compound [.integer] []) (.compound [.integer] [["c", "2"]])
    [.dict [("a", [.int32 1])], .dict [("b", [.str "x"])]] (.dict [("c", [.int32 2])])
    [] [] (by decide) (by decide) (by decide) (by decide) (by decide)).2

/-- C4 (as stated, refuted): two array values are queued for a compound
option with one integer column; the rows of the last one, `b` with the cell
`x`, are rejected by `set_value_untyped`, so after `apply_update` the option
holds the rows of the first write and not those of the last. -/
theorem rejected_rows_keep_earlier_write :
    kind_matches (.dict [("a", [.int32 1])]) (.compound [.integer] []) = true ∧
    kind_matches (.dict [("b", [.str "x"])]) (.compound [.integer] []) = true ∧
    collect_entries plain_float_ops [("b", [.str "x"])] [] = [["b", "x"]] ∧
    apply_update plain_float_ops [⟨"core", [("rows", .compound [.integer] [])]⟩]
      [⟨"core", "rows", .dict [("a", [.int32 1])]⟩,
       ⟨"core", "rows", .dict [("b", [.str "x"])]⟩] =
      some ([⟨"core", [("rows", .compound [.integer] [["a", "1"]])]⟩], []) := by
  decide

/-! ### Compound values -/

/-- C10: for an array wire value sent to a compound option, the rows that
`apply_field` hands to `set_value_untyped` are, in wire order, one row per
entry: the row key followed by the renderings of the children in their
order (a string verbatim, a boolean as `1` or `0`, an int32 and a double as
decimal text), a child of any other type being left out of its row. -/
theorem apply_field_compound_rows (fe : FloatOps) (config : config_manager_t)
    (wire : List (String × List GChild)) (sec key : String) (s : section_t)
    (cols : List EntryKind) (value : List (List String))
    (hs : get_section config sec = some s)
    (ho : s.get_option_or key = some (.compound cols value)) :
    apply_field fe config (.dict wire) sec key =
      some (store_option config sec key
        (set_value_untyped fe cols value
          (wire.map (fun e => e.1 :: e.2.filterMap (render_child fe))))) := by
  simp [apply_field, hs, ho, collect_entries_eq]

theorem apply_field_compound_rows_witness :
    apply_field plain_float_ops [⟨"command", [("bindings", .compound [.string, .integer] [])]⟩]
      (.dict [("term", [.str "alacritty", .unsupported, .int32 (-7)]),
              ("menu", [.bool true, .int32 2])]) "command" "bindings" =
    some [⟨"command", [("bindings",
      .compound [.string, .integer] [["term", "alacritty", "-7"], ["menu", "1", "2"]])]⟩] := by
  have h := apply_field_compound_rows plain_float_ops
    [⟨"command", [("bindings", .compound [.string, .integer] [])]⟩]
    [("term", [.str "alacritty", .unsupported, .int32 (-7)]),
     ("menu", [.bool true, .int32 2])] "command" "bindings"
    ⟨"command", [("bindings", .compound [.string, .integer] [])]⟩
    [.string, .integer] [] (by decide) (by decide)
  rw [h]
  decide

/-! ### Dynamic sections -/

theorem get_section_append_some (config added : config_manager_t) (n : String) (s : section_t)
    (h : get_section config n = some s) : get_section (config ++ added) n = some s := by
  induction config with
  | nil => simp [get_section] at h
  | cons x rest ih =>
    by_cases hx : x.name = n
    · simpa [get_section, hx] using h
    · simp only [get_section, hx, if_false] at h
      simp [get_section, hx, ih h]

theorem get_section_append_none (config : config_manager_t) (x : section_t) (n : String)
    (h : get_section config n = none) :
    get_section (config ++ [x]) n = if x.name = n then some x else none := by
  induction config with
  | nil => simp [get_section]
  | cons y rest ih =>
    by_cases hy : y.name = n
    · simp [get_section, hy] at h
    · simp only [get_section, hy, if_false] at h
      simp [get_section, hy, ih h]

theorem get_section_append_other (config : config_manager_t) (x : section_t) (n : String)
    (h : x.name ≠ n) : get_section (config ++ [x]) n = get_section config n := by
  cases hc : get_section config n with
  | none => simp [get_section_append_none config x n hc, h]
  | some s => exact get_section_append_some config [x] n s hc

theorem find_first_of_chars_none (l : List Char) (c : Char)
    (h : find_first_of_chars l c = none) : c ∉ l := by
  induction l with
  | nil => simp
  | cons x xs ih =>
    by_cases hx : x = c
    · simp [find_first_of_chars, hx] at h
    · simp only [find_first_of_chars, hx, if_false, Option.map_eq_none'] at h
      simp only [List.mem_cons, not_or]
      exact ⟨fun e => hx e.symm, ih h⟩

theorem find_first_of_chars_some (l : List Char) (c : Char) :
    ∀ k, find_first_of_chars l c = some k → c ∈ l ∧ c ∉ l.take k := by
  induction l with
  | nil => intro k h; simp [find_first_of_chars] at h
  | cons x xs ih =>
    intro k h
    by_cases hx : x = c
    · simp only [find_first_of_chars, hx, if_true, Option.some.injEq] at h
      subst h
      simp [hx]
    · simp only [find_first_of_chars, hx, if_false, Option.map_eq_some'] at h
      obtain ⟨j, hj, rfl⟩ := h
      obtain ⟨h1, h2⟩ := ih j hj
      refine ⟨List.mem_cons_of_mem _ h1, ?_⟩
      simp only [List.take_succ_cons, List.mem_cons, not_or]
      exact ⟨fun e => hx e.symm, h2⟩

theorem substr_whole (s : String) : substr s 0 none = s := by
  apply String.ext
  simp [substr]

theorem parent_has_no_colon (e : String) :
    ':' ∉ (substr e 0 (find_first_of e ':')).data := by
  cases h : find_first_of e ':' with
  | none =>
    rw [substr_whole]
    exact find_first_of_chars_none _ _ h
  | some k =>
    simpa [substr] using (find_first_of_chars_some _ _ k h).2

theorem merge_section_absent (config : config_manager_t) (s : section_t)
    (h : get_section config s.name = none) : merge_section config s = config ++ [s] := by
  simp [merge_section, h]

/-- One pass of the loop of lines 111-124 either leaves the configuration or
appends the clone of the parent under the name of the entry, which then holds
a `':'`. -/
theorem add_dynamic_sections_step (config : config_manager_t) (sec : String)
    (rest : List String) :
    add_dynamic_sections config (sec :: rest) = add_dynamic_sections config rest ∨
    ∃ parent, get_section config sec = none ∧
      get_section config (substr sec 0 (find_first_of sec ':')) = some parent ∧
      ':' ∈ sec.data ∧
      add_dynamic_sections config (sec :: rest) =
        add_dynamic_sections (config ++ [parent.clone_with_name sec]) rest := by
  cases hsec : get_section config sec with
  | some x => left; simp [add_dynamic_sections, hsec]
  | none =>
    cases hpar : get_section config (substr sec 0 (find_first_of sec ':')) with
    | none => left; simp [add_dynamic_sections, hsec, hpar]
    | some parent =>
      right
      refine ⟨parent, rfl, rfl, ?_, ?_⟩
      · cases hf : find_first_of sec ':' with
        | none =>
          rw [hf, substr_whole, hsec] at hpar
          exact Option.noConfusion hpar
        | some k => exact (find_first_of_chars_some _ _ k hf).1
      · have hm := merge_section_absent config (parent.clone_with_name sec) hsec
        simp [add_dynamic_sections, hsec, hpar, hm]

theorem add_dynamic_sections_colon_free (lst : List String) :
    ∀ (config : config_manager_t) (n : String), ':' ∉ n.data →
      get_section (add_dynamic_sections config lst) n = get_section config n := by
  induction lst with
  | nil => intro config n _; rfl
  | cons sec rest ih =>
    intro config n hn
    rcases add_dynamic_sections_step config sec rest with h | ⟨parent, _, _, hcolon, h⟩
    · rw [h]; exact ih config n hn
    · rw [h, ih _ n hn]
      apply get_section_append_other
      intro e
      have e' : sec = n := e
      exact hn (e' ▸ hcolon)

theorem add_dynamic_sections_skip (l1 l2 : List String) (e : String) :
    ∀ config : config_manager_t,
      get_section config (substr e 0 (find_first_of e ':')) = none →
      add_dynamic_sections config (l1 ++ e :: l2) = add_dynamic_sections config (l1 ++ l2) := by
  induction l1 with
  | nil =>
    intro config h
    cases hsec : get_section config e with
    | some x => simp [add_dynamic_sections, hsec]
    | none => simp [add_dynamic_sections, hsec, h]
  | cons sec rest ih =>
    intro config h
    have hkeep : ∀ x : section_t, ':' ∈ sec.data →
        get_section (config ++ [x.clone_with_name sec]) (substr e 0 (find_first_of e ':')) =
          none := by
      intro x hcolon
      rw [get_section_append_other config _ _ ?_]
      · exact h
      · intro heq
        have heq' : sec = substr e 0 (find_first_of e ':') := heq
        exact parent_has_no_colon e (heq' ▸ hcolon)
    cases hsec : get_section config sec with
    | some x => simpa [add_dynamic_sections, hsec] using ih config h
    | none =>
      cases hpar : get_section config (substr sec 0 (find_first_of sec ':')) with
      | none => simpa [add_dynamic_sections, hsec, hpar] using ih config h
      | some parent =>
        have hcolon : ':' ∈ sec.data := by
          cases hf : find_first_of sec ':' with
          | none =>
            rw [hf, substr_whole, hsec] at hpar
            exact Option.noConfusion hpar
          | some k => exact (find_first_of_chars_some _ _ k hf).1
        have hm := merge_section_absent config (parent.clone_with_name sec) hsec
        simpa [add_dynamic_sections, hsec, hpar, hm] using ih _ (hkeep parent hcolon)

/-- C7: an entry of `dyn-sections` whose parent section (the text before its
first `':'`) does not exist is passed over: `gsettings_meta_callback` on a
list with that entry ends in the state it ends in on the list without it, and
on the list of that entry alone it leaves the configuration as it was. -/
theorem missing_parent_entry_skipped (store : Store) (w : World) (l1 l2 : List String)
    (e : String)
    (h : get_section w.config (substr e 0 (find_first_of e ':')) = none) :
    gsettings_meta_callback store w (l1 ++ e :: l2) "dyn-sections" =
      gsettings_meta_callback store w (l1 ++ l2) "dyn-sections" ∧
    (gsettings_meta_callback store w [e] "dyn-sections").config = w.config := by
  have h1 := add_dynamic_sections_skip l1 l2 e w.config h
  have h2 := add_dynamic_sections_skip [] [] e w.config h
  simp only [List.nil_append] at h2
  constructor
  · simp [gsettings_meta_callback, h1]
  · have h3 : add_dynamic_sections w.config [] = w.config := rfl
    simp only [gsettings_meta_callback, if_true, h2, h3]

theorem missing_parent_entry_skipped_witness :
    get_section [⟨"device.output", [("brightness", .int 50)]⟩]
      (substr "nosuch:x" 0 (find_first_of "nosuch:x" ':')) = none ∧
    gsettings_meta_callback sample_store
      ⟨[⟨"device.output", [("brightness", .int 50)]⟩], initial_globals⟩
      (["device.output:eDP-1"] ++ "nosuch:x" :: ["device.output:HDMI-A-1"]) "dyn-sections" =
    gsettings_meta_callback sample_store
      ⟨[⟨"device.output", [("brightness", .int 50)]⟩], initial_globals⟩
      (["device.output:eDP-1"] ++ ["device.output:HDMI-A-1"]) "dyn-sections" :=
  ⟨by decide,
    (missing_parent_entry_skipped sample_store
      ⟨[⟨"device.output", [("brightness", .int 50)]⟩], initial_globals⟩
      ["device.output:eDP-1"] ["device.output:HDMI-A-1"] "nosuch:x" (by decide)).1⟩

/-! ### The section scan -/

theorem gsettings_callback_keeps (store : Store) (g : Globals) (gs : GSettings) (key : String) :
    (gsettings_callback store g gs key).gsets = g.gsets ∧
    (gsettings_callback store g gs key).handlers = g.handlers ∧
    (gsettings_callback store g gs key).next_addr = g.next_addr := by
  unfold gsettings_callback
  by_cases h : g.init_done = true <;> simp [h]

theorem initial_values_keeps (store : Store) (gs : GSettings) (keys : List String) :
    ∀ g : Globals,
      (initial_values store gs keys g).gsets = g.gsets ∧
      (initial_values store gs keys g).handlers = g.handlers ∧
      (initial_values store gs keys g).next_addr = g.next_addr := by
  induction keys with
  | nil => intro g; exact ⟨rfl, rfl, rfl⟩
  | cons key rest ih =>
    intro g
    obtain ⟨h1, h2, h3⟩ := ih (gsettings_callback store g gs key)
    obtain ⟨k1, k2, k3⟩ := gsettings_callback_keeps store g gs key
    simp only [initial_values]
    exact ⟨h1.trans k1, h2.trans k2, h3.trans k3⟩

theorem gsets_find_append (gsets : List (String × GSettings)) (n m : String) (gs : GSettings) :
    gsets_find (gsets ++ [(n, gs)]) m =
      match gsets_find gsets m with
      | some x => some x
      | none => if n = m then some gs else none := by
  induction gsets with
  | nil => simp [gsets_find]
  | cons kv rest ih =>
    obtain ⟨k, v⟩ := kv
    by_cases hk : k = m
    · simp [gsets_find, hk]
    · simp [gsets_find, hk, ih]

theorem gsets_find_none_iff (gsets : List (String × GSettings)) (n : String) :
    gsets_find gsets n = none ↔ n ∉ gsets.map Prod.fst := by
  induction gsets with
  | nil => simp [gsets_find]
  | cons kv rest ih =>
    obtain ⟨k, v⟩ := kv
    by_cases hk : k = n
    · simp [gsets_find, hk]
    · have hk' : ¬ n = k := fun e => hk e.symm
      simp [gsets_find, hk, hk', ih]

theorem update_schema_noop (store : Store) (g : Globals) (n : String)
    (h : (gsets_find g.gsets n).isSome = true ∨ can_bind store n = false) :
    update_schema store g n = g := by
  unfold update_schema
  by_cases hb : (gsets_find g.gsets n).isSome = true
  · simp [gsets_count, hb]
  · have hc : can_bind store n = false := h.resolve_left hb
    unfold can_bind at hc
    simp only [gsets_count, hb]
    cases hl : store.schema_source_lookup (resolve_schema n).1 with
    | none => simp
    | some schema =>
      rw [hl] at hc
      by_cases hr : (resolve_schema n).2.isNone = true ∧ schema.path.isNone = true
      · simp [hr]
      · have hn : store.settings_new (resolve_schema n).1 (resolve_schema n).2 = false := by
          simp only [Bool.and_eq_false_iff, Bool.not_eq_false', Bool.and_eq_true] at hc
          exact hc.resolve_left hr
        simp [hr, hn]

theorem update_schema_binds (store : Store) (g : Globals) (n : String)
    (hfree : gsets_find g.gsets n = none) (hcan : can_bind store n = true) :
    (update_schema store g n).gsets =
      g.gsets ++ [(n, ⟨g.next_addr, (resolve_schema n).1, (resolve_schema n).2⟩)] ∧
    (update_schema store g n).handlers =
      g.handlers ++ [⟨g.next_addr, (resolve_schema n).1, (resolve_schema n).2⟩] ∧
    (update_schema store g n).next_addr = g.next_addr + 1 := by
  unfold can_bind at hcan
  unfold update_schema
  cases hl : store.schema_source_lookup (resolve_schema n).1 with
  | none => rw [hl] at hcan; exact Bool.noConfusion hcan
  | some schema =>
    rw [hl] at hcan
    simp only [Bool.and_eq_true, Bool.not_eq_true', Bool.and_eq_false_iff] at hcan
    obtain ⟨hr, hn⟩ := hcan
    have hr' : ¬ ((resolve_schema n).2.isNone = true ∧ schema.path.isNone = true) := by
      intro ⟨a, b⟩
      rcases hr with h | h
      · rw [a] at h; exact Bool.noConfusion h
      · rw [b] at h; exact Bool.noConfusion h
    have hfind : gsets_find (gsets_emplace g.gsets n
        ⟨g.next_addr, (resolve_schema n).1, (resolve_schema n).2⟩) n =
        some ⟨g.next_addr, (resolve_schema n).1, (resolve_schema n).2⟩ := by
      simp [gsets_emplace, hfree, gsets_find_append]
    obtain ⟨k1, k2, k3⟩ := initial_values_keeps store
      ⟨g.next_addr, (resolve_schema n).1, (resolve_schema n).2⟩ schema.keys
      { g with
        gsets := gsets_emplace g.gsets n ⟨g.next_addr, (resolve_schema n).1, (resolve_schema n).2⟩
        gsets_rev := gsets_rev_emplace g.gsets_rev
          ⟨g.next_addr, (resolve_schema n).1, (resolve_schema n).2⟩ n
        handlers := g.handlers ++
          [(gsets_find (gsets_emplace g.gsets n
            ⟨g.next_addr, (resolve_schema n).1, (resolve_schema n).2⟩) n).getD
            ⟨g.next_addr, (resolve_schema n).1, (resolve_schema n).2⟩]
        next_addr := g.next_addr + 1 }
    simp only [gsets_count, hfree, Option.isSome_none, Bool.false_eq_true, if_false, ne_eq,
      not_true_eq_false, hr', hn, if_true, hl]
    refine ⟨k1.trans ?_, k2.trans ?_, k3⟩
    · simp [gsets_emplace, hfree]
    · simp [hfind]

theorem update_schema_settles (store : Store) (g : Globals) (n : String) :
    (gsets_find (update_schema store g n).gsets n).isSome = true ∨ can_bind store n = false := by
  by_cases hb : (gsets_find g.gsets n).isSome = true
  · left; rw [update_schema_noop store g n (Or.inl hb)]; exact hb
  · by_cases hc : can_bind store n = true
    · left
      have hfree : gsets_find g.gsets n = none := by
        cases h : gsets_find g.gsets n with
        | none => rfl
        | some x => simp [h] at hb
      rw [(update_schema_binds store g n hfree hc).1, gsets_find_append, hfree]
      simp
    · right; simpa using hc

theorem update_schema_keeps_bound (store : Store) (g : Globals) (n m : String)
    (h : (gsets_find g.gsets m).isSome = true) :
    (gsets_find (update_schema store g n).gsets m).isSome = true := by
  by_cases hb : (gsets_find g.gsets n).isSome = true
  · rw [update_schema_noop store g n (Or.inl hb)]; exact h
  · by_cases hc : can_bind store n = true
    · have hfree : gsets_find g.gsets n = none := by
        cases h' : gsets_find g.gsets n with
        | none => rfl
        | some x => simp [h'] at hb
      rw [(update_schema_binds store g n hfree hc).1, gsets_find_append]
      obtain ⟨x, hx⟩ := Option.isSome_iff_exists.mp h
      simp [hx]
    · rw [update_schema_noop store g n (Or.inr (by simpa using hc))]; exact h

theorem scan_keeps_bound (store : Store) (names : List String) (m : String) :
    ∀ g : Globals, (gsets_find g.gsets m).isSome = true →
      (gsets_find (names.foldl (update_schema store) g).gsets m).isSome = true := by
  induction names with
  | nil => intro g h; exact h
  | cons n rest ih =>
    intro g h
    exact ih _ (update_schema_keeps_bound store g n m h)

theorem scan_settles (store : Store) (names : List String) :
    ∀ g : Globals, ∀ n ∈ names,
      (gsets_find (names.foldl (update_schema store) g).gsets n).isSome = true ∨
        can_bind store n = false := by
  induction names with
  | nil => intro g n hn; simp at hn
  | cons x rest ih =>
    intro g n hn
    rcases List.mem_cons.mp hn with h | h
    · subst h
      rcases update_schema_settles store g n with hb | hc
      · left; exact scan_keeps_bound store rest n _ hb
      · right; exact hc
    · exact ih _ n h

theorem scan_noop (store : Store) (names : List String) :
    ∀ g : Globals,
      (∀ n ∈ names, (gsets_find g.gsets n).isSome = true ∨ can_bind store n = false) →
      names.foldl (update_schema store) g = g := by
  induction names with
  | nil => intro g _; rfl
  | cons x rest ih =>
    intro g h
    simp only [List.foldl_cons]
    rw [update_schema_noop store g x (h x (List.mem_cons_self _ _))]
    exact ih g (fun n hn => h n (List.mem_cons_of_mem _ hn))

theorem update_schema_one_binding (store : Store) (g : Globals) (n : String)
    (h : one_binding_each g) : one_binding_each (update_schema store g n) := by
  by_cases hb : (gsets_find g.gsets n).isSome = true
  · rw [update_schema_noop store g n (Or.inl hb)]; exact h
  · by_cases hc : can_bind store n = true
    · have hfree : gsets_find g.gsets n = none := by
        cases h' : gsets_find g.gsets n with
        | none => rfl
        | some x => simp [h'] at hb
      obtain ⟨k1, k2, k3⟩ := update_schema_binds store g n hfree hc
      obtain ⟨h1, h2, hnd, h3⟩ := h
      refine ⟨?_, ?_, ?_, ?_⟩
      · rw [k1, List.map_append, List.nodup_append]
        refine ⟨h1, by simp, ?_⟩
        intro a ha hb'
        simp only [List.map_cons, List.map_nil, List.mem_singleton] at hb'
        subst hb'
        exact (gsets_find_none_iff g.gsets a).mp hfree ha
      · rw [k1, k2, h2]; simp
      · rw [k2, List.nodup_append]
        refine ⟨hnd, by simp, ?_⟩
        intro a ha hb'
        simp only [List.mem_singleton] at hb'
        subst hb'
        exact Nat.lt_irrefl _ (h3 _ ha)
      · intro x hx
        rw [k2] at hx
        rw [k3]
        rcases List.mem_append.mp hx with hx | hx
        · exact Nat.lt_succ_of_lt (h3 x hx)
        · simp only [List.mem_singleton] at hx
          subst hx
          exact Nat.lt_succ_self _
    · rw [update_schema_noop store g n (Or.inr (by simpa using hc))]; exact h

theorem scan_one_binding (store : Store) (names : List String) :
    ∀ g : Globals, one_binding_each g →
      one_binding_each (names.foldl (update_schema store) g) := by
  induction names with
  | nil => intro g h; exact h
  | cons n rest ih => intro g h; exact ih _ (update_schema_one_binding store g n h)

/-- C5: a second run of `gsettings_update_schemas` over the same sections and
the same catalog changes nothing: the globals after two scans are those after
one (the binding maps `gsets` and `gsets_rev`, the queue of initial values,
the connected handlers).  From a state with one binding and one handler for
each bound section name, the scans lead to such a state. -/
theorem rescan_is_noop (store : Store) (config : config_manager_t) (g : Globals)
    (h : one_binding_each g) :
    gsettings_update_schemas store config (gsettings_update_schemas store config g) =
      gsettings_update_schemas store config g ∧
    one_binding_each
      (gsettings_update_schemas store config (gsettings_update_schemas store config g)) := by
  have hidem : gsettings_update_schemas store config (gsettings_update_schemas store config g) =
      gsettings_update_schemas store config g :=
    scan_noop store _ _ (scan_settles store _ g)
  refine ⟨hidem, ?_⟩
  rw [hidem]
  exact scan_one_binding store _ g h

theorem rescan_is_noop_witness :
    one_binding_each initial_globals ∧
    gsettings_update_schemas sample_store
      [⟨"core", [("vwidth", .int 1)]⟩, ⟨"device.output", [("brightness", .int 50)]⟩]
      (gsettings_update_schemas sample_store
        [⟨"core", [("vwidth", .int 1)]⟩, ⟨"device.output", [("brightness", .int 50)]⟩]
        initial_globals) =
    gsettings_update_schemas sample_store
      [⟨"core", [("vwidth", .int 1)]⟩, ⟨"device.output", [("brightness", .int 50)]⟩]
      initial_globals :=
  ⟨by simp [one_binding_each, initial_globals],
    (rescan_is_noop sample_store
      [⟨"core", [("vwidth", .int 1)]⟩, ⟨"device.output", [("brightness", .int 50)]⟩]
      initial_globals (by simp [one_binding_each, initial_globals])).1⟩

/-! ### The debounced notifier -/

theorem store_option_sections (config : config_manager_t) (sec key : String)
    (o : option_base_t) (n : String) :
    (get_section (store_option config sec key o) n).isSome = (get_section config n).isSome := by
  induction config with
  | nil => rfl
  | cons x rest ih =>
    by_cases hx : x.name = sec
    · subst hx
      by_cases hn : x.name = n
      · simp [store_option, get_section, hn]
      · simp [store_option, get_section, hn]
    · by_cases hn : x.name = n
      · subst hn
        simp [store_option, get_section, hx]
      · simp [store_option, get_section, hx, hn, ih]

theorem apply_field_total (fe : FloatOps) (config : config_manager_t) (val : GVariant)
    (sec key : String) (hsec : (get_section config sec).isSome = true)
    (hval : val ≠ .array_other) :
    ∃ config', apply_field fe config val sec key = some config' ∧
      ∀ n, (get_section config' n).isSome = (get_section config n).isSome := by
  obtain ⟨s, hs⟩ := Option.isSome_iff_exists.mp hsec
  simp only [apply_field, hs]
  cases ho : s.get_option_or key with
  | none => exact ⟨config, rfl, fun _ => rfl⟩
  | some opt =>
    cases val <;> cases opt <;> first
      | exact absurd rfl hval
      | exact ⟨config, rfl, fun _ => rfl⟩
      | exact ⟨_, rfl, fun n => store_option_sections config sec key _ n⟩

theorem change_applies_sections (config config' : config_manager_t) (chg : conf_change)
    (h : ∀ n, (get_section config' n).isSome = (get_section config n).isSome) :
    change_applies config' chg = change_applies config chg := by
  simp [change_applies, h chg.sec]

theorem apply_update_total (fe : FloatOps) (q : List conf_change) :
    ∀ config : config_manager_t, (∀ chg ∈ q, change_applies config chg = true) →
      ∃ config', apply_update fe config q = some (config', []) ∧
        ∀ n, (get_section config' n).isSome = (get_section config n).isSome := by
  induction q with
  | nil => intro config _; exact ⟨config, rfl, fun _ => rfl⟩
  | cons chg rest ih =>
    intro config h
    have h0 := h chg (List.mem_cons_self _ _)
    simp only [change_applies, Bool.and_eq_true, bne_iff_ne, ne_eq] at h0
    obtain ⟨c1, hc1, hsec1⟩ :=
      apply_field_total fe config chg.val chg.sec (std_replace chg.key '-' '_') h0.1 h0.2
    obtain ⟨c2, hc2, hsec2⟩ := ih c1 (fun x hx => by
      rw [change_applies_sections config c1 x hsec1]
      exact h x (List.mem_cons_of_mem _ hx))
    refine ⟨c2, ?_, fun n => (hsec2 n).trans (hsec1 n)⟩
    simp only [apply_update, hc1]
    exact hc2

/-- What `handle_update` does on a queue of changes that can be applied: the
queue is drained into the configuration, the timer is set to 69 ms after
`now`, one byte is read and one is written. -/
theorem handle_update_total (fe : FloatOps) (now : Nat) (ctx : Consumer)
    (changes : List conf_change)
    (h : ∀ chg ∈ changes, change_applies ctx.config chg = true) :
    ∃ config', handle_update fe now ctx changes =
        some (⟨config', ctx.notifier.rearm now, ctx.fd_read + 1, ctx.fd_written + 1⟩, []) ∧
      ∀ n, (get_section config' n).isSome = (get_section ctx.config n).isSome := by
  obtain ⟨c, hc, hsec⟩ := apply_update_total fe changes ctx.config h
  exact ⟨c, by simp [handle_update, hc], hsec⟩

theorem run_batches_step (fe : FloatOps) (timer_first : Bool) (now : Nat)
    (pushed : List conf_change) (rest : List (Nat × List conf_change)) (ctx : Consumer)
    (h : ∀ chg ∈ pushed, change_applies ctx.config chg = true) :
    ∃ ctx1 : Consumer,
      run_batches fe timer_first ((now, pushed) :: rest) ctx [] =
        run_batches fe timer_first rest ctx1 [] ∧
      ctx1.notifier = (ctx.notifier.dispatch timer_first now).rearm now ∧
      ∀ n, (get_section ctx1.config n).isSome = (get_section ctx.config n).isSome := by
  obtain ⟨c, hc, hsec⟩ :=
    handle_update_total fe now (ctx.dispatch timer_first now) pushed h
  refine ⟨⟨c, (ctx.dispatch timer_first now).notifier.rearm now,
    (ctx.dispatch timer_first now).fd_read + 1,
    (ctx.dispatch timer_first now).fd_written + 1⟩, ?_, rfl, fun n => hsec n⟩
  simp only [run_batches, List.nil_append, hc]

theorem run_batches_burst (fe : FloatOps) (timer_first : Bool)
    (batches : List (Nat × List conf_change)) :
    ∀ (t0 r : Nat) (ctx : Consumer), ctx.notifier = ⟨some (t0 + 69), r⟩ →
      List.Chain (fun a b => a ≤ b ∧ b < a + 69) t0 (batches.map Prod.fst) →
      (∀ b ∈ batches, ∀ chg ∈ b.2, change_applies ctx.config chg = true) →
      ∃ (ctx' : Consumer) (tl : Nat),
        run_batches fe timer_first batches ctx [] = some (ctx', []) ∧
        ctx'.notifier = ⟨some (tl + 69), r⟩ ∧
        (tl = t0 ∨ tl ∈ batches.map Prod.fst) := by
  induction batches with
  | nil =>
    intro t0 r ctx hn _ _
    exact ⟨ctx, t0, rfl, hn, Or.inl rfl⟩
  | cons b rest ih =>
    intro t0 r ctx hn hc hok
    obtain ⟨now, pushed⟩ := b
    simp only [List.map_cons] at hc
    obtain ⟨⟨_, hlt⟩, hrest⟩ := List.chain_cons.mp hc
    obtain ⟨ctx1, hrun, hnot, hsec⟩ := run_batches_step fe timer_first now pushed rest ctx
      (hok (now, pushed) (List.mem_cons_self _ _))
    have h1 : ¬ (t0 + 69 < now ∨ (t0 + 69 = now ∧ timer_first = true)) := by
      intro h
      rcases h with h | ⟨h, _⟩ <;> omega
    have hnot1 : ctx1.notifier = ⟨some (now + 69), r⟩ := by
      rw [hnot, hn]
      simp [Notifier.dispatch, h1, Notifier.rearm, Notifier.disconnect, Notifier.set_timeout]
    obtain ⟨ctx', tl, hrun', hn', hmem⟩ := ih now r ctx1 hnot1 hrest (fun b hb chg hchg => by
      rw [change_applies_sections ctx.config ctx1.config chg hsec]
      exact hok b (List.mem_cons_of_mem _ hb) chg hchg)
    refine ⟨ctx', tl, hrun.trans hrun', hn', Or.inr ?_⟩
    rcases hmem with h | h
    · simp [h]
    · simp [h]

/-- C8: the consumer is idle (no timer armed) and receives batches of changes
that can be applied; every batch is handled by `handle_update`, which drains
the queue and sets the timer to 69 ms, and a timer that comes due emits one
reload and disconnects.  Two batches `gap` ms apart then produce one reload
when `gap < 69` and two when `69 < gap` (at `gap = 69` it is the order in
which the event loop dispatches the two that decides), and a burst of batches
with every gap shorter than 69 ms produces one reload. -/
theorem debounce_coalescing (fe : FloatOps) (timer_first : Bool) (ctx : Consumer)
    (t gap horizon : Nat) (q1 q2 : List conf_change)
    (batches : List (Nat × List conf_change))
    (hidle : ctx.notifier.sig_debounce = none)
    (hq1 : ∀ chg ∈ q1, change_applies ctx.config chg = true)
    (hq2 : ∀ chg ∈ q2, change_applies ctx.config chg = true)
    (hh : t + gap + 69 < horizon)
    (hne : batches ≠ [])
    (hburst : List.Chain' (fun a b => a ≤ b ∧ b < a + 69) (batches.map Prod.fst))
    (hb : ∀ b ∈ batches, ∀ chg ∈ b.2, change_applies ctx.config chg = true)
    (hhb : ∀ b ∈ batches, b.1 + 69 < horizon) :
    reload_count fe timer_first [(t, q1), (t + gap, q2)] horizon ctx =
      some (ctx.notifier.reloads +
        (if gap < 69 then 1 else if 69 < gap then 2 else if timer_first = true then 2 else 1)) ∧
    reload_count fe timer_first batches horizon ctx = some (ctx.notifier.reloads + 1) := by
  have hctx : ctx.notifier = ⟨none, ctx.notifier.reloads⟩ := by
    cases hn : ctx.notifier with
    | mk sd r => rw [hn] at hidle; simp only at hidle; subst hidle; rfl
  constructor
  · obtain ⟨ctx1, hrun1, hnot1, hsec1⟩ :=
      run_batches_step fe timer_first t q1 [(t + gap, q2)] ctx hq1
    obtain ⟨ctx2, hrun2, hnot2, _⟩ :=
      run_batches_step fe timer_first (t + gap) q2 [] ctx1 (fun chg hchg => by
        rw [change_applies_sections ctx.config ctx1.config chg hsec1]
        exact hq2 chg hchg)
    have hn1 : ctx1.notifier = ⟨some (t + 69), ctx.notifier.reloads⟩ := by
      rw [hnot1, hctx]
      simp [Notifier.dispatch, Notifier.rearm, Notifier.disconnect, Notifier.set_timeout]
    unfold reload_count
    rw [hrun1, hrun2]
    simp only [run_batches, Option.map_some', Consumer.dispatch]
    rw [hnot2, hn1]
    simp only [Notifier.dispatch, Notifier.rearm, Notifier.disconnect, Notifier.set_timeout,
      Notifier.fire]
    have hdue : t + gap + 69 < horizon ∨ (t + gap + 69 = horizon ∧ timer_first = true) :=
      Or.inl hh
    by_cases hfire : t + 69 < t + gap ∨ (t + 69 = t + gap ∧ timer_first = true)
    · rw [if_pos hfire]
      simp only [if_pos hdue]
      have h1 : ¬ gap < 69 := by
        rcases hfire with h | ⟨h, _⟩ <;> omega
      rw [if_neg h1]
      rcases hfire with h | ⟨h, htf⟩
      · rw [if_pos (by omega : 69 < gap)]
      · rw [if_neg (by omega : ¬ 69 < gap), if_pos htf]
    · rw [if_neg hfire]
      simp only [if_pos hdue]
      by_cases h1 : gap < 69
      · rw [if_pos h1]
      · rw [if_neg h1]
        have h2 : ¬ 69 < gap := fun h => hfire (Or.inl (by omega))
        have h3 : ¬ timer_first = true := fun h => hfire (Or.inr ⟨by omega, h⟩)
        rw [if_neg h2, if_neg h3]
  · cases batches with
    | nil => exact absurd rfl hne
    | cons b rest =>
      obtain ⟨t0, q0⟩ := b
      obtain ⟨ctx1, hrun1, hnot1, hsec1⟩ :=
        run_batches_step fe timer_first t0 q0 rest ctx (hb (t0, q0) (List.mem_cons_self _ _))
      have hn1 : ctx1.notifier = ⟨some (t0 + 69), ctx.notifier.reloads⟩ := by
        rw [hnot1, hctx]
        simp [Notifier.dispatch, Notifier.rearm, Notifier.disconnect, Notifier.set_timeout]
      simp only [List.map_cons] at hburst
      obtain ⟨ctx', tl, hrun', hn', hmem⟩ :=
        run_batches_burst fe timer_first rest t0 ctx.notifier.reloads ctx1 hn1 hburst
          (fun b hb' chg hchg => by
            rw [change_applies_sections ctx.config ctx1.config chg hsec1]
            exact hb b (List.mem_cons_of_mem _ hb') chg hchg)
      have htl : tl + 69 < horizon := by
        rcases hmem with h | h
        · rw [h]; exact hhb (t0, q0) (List.mem_cons_self _ _)
        · obtain ⟨b', hb', hfst⟩ := List.mem_map.mp h
          rw [← hfst]
          exact hhb b' (List.mem_cons_of_mem _ hb')
      have hdue : tl + 69 < horizon ∨ (tl + 69 = horizon ∧ timer_first = true) := Or.inl htl
      unfold reload_count
      rw [hrun1, hrun']
      simp only [Option.map_some', Consumer.dispatch]
      rw [hn']
      simp only [Notifier.dispatch, if_pos hdue, Notifier.fire]

theorem debounce_coalescing_witness :
    reload_count plain_float_ops true
      [(0, [⟨"core", "vwidth", .int32 4⟩]), (0 + 40, [⟨"core", "vwidth", .int32 5⟩])] 500
      ⟨[⟨"core", [("vwidth", .int 3)]⟩], ⟨none, 0⟩, 0, 0⟩ =
      some (0 + (if 40 < 69 then 1 else if 69 < 40 then 2 else if true = true then 2 else 1)) ∧
    reload_count plain_float_ops true
      [(0, [⟨"core", "vwidth", .int32 4⟩]), (40, []), (100, [⟨"core", "vwidth", .int32 6⟩])] 500
      ⟨[⟨"core", [("vwidth", .int 3)]⟩], ⟨none, 0⟩, 0, 0⟩ = some (0 + 1) :=
  debounce_coalescing plain_float_ops true
    ⟨[⟨"core", [("vwidth", .int 3)]⟩], ⟨none, 0⟩, 0, 0⟩ 0 40 500
    [⟨"core", "vwidth", .int32 4⟩] [⟨"core", "vwidth", .int32 5⟩]
    [(0, [⟨"core", "vwidth", .int32 4⟩]), (40, []), (100, [⟨"core", "vwidth", .int32 6⟩])]
    rfl (by decide) (by decide) (by decide) (by decide) (by simp) (by decide) (by decide)

end WfGsettings
